import Mathlib

/-!
Shallow embedding of the core of `mapspec.py` (the rescaling model, kernel
library, covariance propagator and Metropolis–Hastings sampler) together with
theorems settling the specification claims.

Modelling conventions:
* Python floats are modelled as `ℚ` where the source only does field
  arithmetic and comparisons (parameter dictionaries, wavelength grids,
  percentiles), and as `ℝ` where transcendental functions appear
  (`exp`, `sqrt`, `log`, kernels, chi-square sums).
* `+inf` produced by `RescaleModel._prior_limits` is modelled in `EReal`.
* Random draws (`sp.randn`, `sp.rand`) are inputs of the embedded sampler.
* The external `Spectrum.interp` collaborator (file `spectrum.py`, outside
  the modelled core) is passed as an explicit function argument.
* Python dictionaries are modelled as a key list plus a total valuation.
-/

namespace Mapspec

/-- Python 2 `round` for nonnegative rationals: round half away from zero. -/
def pyround (q : ℚ) : ℤ := ⌊q + 1/2⌋

/-- Python slice `a[t:-t]` for a nonnegative integer `t`.  For `t = 0` this is
`a[0:-0] = a[0:0] = []`, exactly as in Python (since `-0 == 0`). -/
def pyTrimSlice (a : List ℝ) (t : ℕ) : List ℝ :=
  if t = 0 then [] else (a.drop t).take (a.length - 2 * t)

/-- Python negative-index access `l[-t]` (with `l[-0] = l[0]`), with default
`0` out of range. -/
def pyNegGet (l : List ℚ) (t : ℕ) : ℚ :=
  if t = 0 then l.getD 0 0 else l.getD (l.length - t) 0

/-- Boolean-mask selection `arr[mask]` (numpy fancy indexing). -/
def maskFilter {α : Type} (l : List α) (m : List Bool) : List α :=
  (l.zip m).filterMap (fun ab => if ab.2 then some ab.1 else none)

/-- Minimum of a list (numpy `.min()`), `0` for the empty list. -/
def qminD : List ℚ → ℚ
  | [] => 0
  | a :: t => t.foldl min a

/-- Maximum of a list (numpy `.max()`), `0` for the empty list. -/
def qmaxD : List ℚ → ℚ
  | [] => 0
  | a :: t => t.foldl max a

/-- Insert into a sorted list (ascending). -/
def insertSorted (a : ℚ) : List ℚ → List ℚ
  | [] => [a]
  | b :: t => if a ≤ b then a :: b :: t else b :: insertSorted a t

/-- Ascending sort, as used by `numpy.percentile`. -/
def sortQ : List ℚ → List ℚ
  | [] => []
  | a :: t => insertSorted a (sortQ t)

/-- Embedding of `numpy.percentile(l, q)` with the default linear
interpolation: on the ascending sort `s`, the value at fractional rank
`h = q/100 * (n-1)` is `s[⌊h⌋] + (h - ⌊h⌋) * (s[⌊h⌋+1] - s[⌊h⌋])`. -/
def npPercentile (l : List ℚ) (q : ℚ) : ℚ :=
  let s := sortQ l
  let h : ℚ := q / 100 * ((l.length : ℚ) - 1)
  let i : ℕ := (⌊h⌋).toNat
  let f : ℚ := h - ⌊h⌋
  s.getD i 0 + f * (s.getD (i + 1) 0 - s.getD i 0)

/-- Median of a list in the textbook sense: middle element of the ascending
sort for odd length, mean of the two middle elements for even length.  Stated
from the specification's words ("the chain's median") for comparison with the
`numpy.percentile` 50 route taken by the source. -/
def listMedian (l : List ℚ) : ℚ :=
  let s := sortQ l
  if l.length % 2 = 1 then s.getD (l.length / 2) 0
  else (s.getD (l.length / 2 - 1) 0 + s.getD (l.length / 2) 0) / 2

/-! ## Kernel library (`RescaleModel._Gauss`, `RescaleModel._Hermite`) -/

/-- Embedding of `sp.r_[-(n//2) + 1 : n//2]` : the integer offsets at which
the smoothing kernels are sampled, for a grid of length `n`. -/
def nprange (n : ℕ) : List ℤ :=
  (List.range (((n / 2 : ℕ) : ℤ) - (-((n / 2 : ℕ) : ℤ) + 1)).toNat).map
    (fun (i : ℕ) => -((n / 2 : ℕ) : ℤ) + 1 + (i : ℤ))

/-- Grid pixel size `x[1] - x[0]` used by the kernel builders. -/
def dlambdaOf (x : List ℚ) : ℚ := x.getD 1 0 - x.getD 0 0

/-- Delta-family kernel: `sp.array([1.0])`. -/
noncomputable def deltaK : List ℝ := [1]

/-- Unnormalized Gaussian kernel of `RescaleModel._Gauss`:
`exp(-0.5 * prange**2 / pixwidth**2)` with `pixwidth = width / (x[1]-x[0])`. -/
noncomputable def gaussRaw (width : ℚ) (x : List ℚ) : List ℝ :=
  let pw : ℝ := ((width / dlambdaOf x : ℚ) : ℝ)
  (nprange x.length).map
    (fun (p : ℤ) => Real.exp (-(1/2) * ((p : ℤ) : ℝ)^2 / pw^2))

/-- Gaussian kernel, normalized by `abs(sp.sum(k))` as in the source. -/
noncomputable def gaussK (width : ℚ) (x : List ℚ) : List ℝ :=
  (gaussRaw width x).map (fun t => t / |(gaussRaw width x).sum|)

/-- Probabilists' Hermite polynomial `He₃(t) = t³ - 3t`
(`numpy.polynomial.hermite_e`). -/
noncomputable def hermE3 (t : ℝ) : ℝ := t^3 - 3*t

/-- Probabilists' Hermite polynomial `He₄(t) = t⁴ - 6t² + 3`
(`numpy.polynomial.hermite_e`). -/
noncomputable def hermE4 (t : ℝ) : ℝ := t^4 - 6*t^2 + 3

/-- Value of the `HermiteE([1, 0, 0, h3, h4])` series used by
`RescaleModel._Hermite`. -/
noncomputable def hermSeries (h3 h4 : ℚ) (t : ℝ) : ℝ :=
  1 + (h3 : ℝ) * hermE3 t + (h4 : ℝ) * hermE4 t

/-- Unnormalized Gauss-Hermite kernel of `RescaleModel._Hermite`:
`1/pixwidth/sqrt(2*pi) * exp(-0.5*prange**2/pixwidth**2) * h(prange/pixwidth)`. -/
noncomputable def hermiteRaw (width h3 h4 : ℚ) (x : List ℚ) : List ℝ :=
  let pw : ℝ := ((width / dlambdaOf x : ℚ) : ℝ)
  (nprange x.length).map (fun (p : ℤ) =>
    1 / pw / Real.sqrt (2 * Real.pi) *
      Real.exp (-(1/2) * ((p : ℤ) : ℝ)^2 / pw^2) *
      hermSeries h3 h4 (((p : ℤ) : ℝ) / pw))

/-- Gauss-Hermite kernel, normalized by `abs(sp.sum(k))` after construction. -/
noncomputable def hermiteK (width h3 h4 : ℚ) (x : List ℚ) : List ℝ :=
  (hermiteRaw width h3 h4 x).map (fun t => t / |(hermiteRaw width h3 h4 x).sum|)

/-! ## Parameter dictionaries -/

/-- Python dict with `ℚ` values: key list plus total valuation. -/
structure QDict where
  keys : List String
  val : String → ℚ

/-- Dict assignment `d[k] = v`. -/
def QDict.set (d : QDict) (k : String) (v : ℚ) : QDict :=
  ⟨if k ∈ d.keys then d.keys else d.keys ++ [k], Function.update d.val k v⟩

/-- Python dict of prior density functions (`RescaleModel.prior_prob`). -/
structure PriorDict where
  keys : List String
  val : String → (ℚ → ℝ)

/-- Dict assignment for a prior dict. -/
def PriorDict.set (d : PriorDict) (k : String) (g : ℚ → ℝ) : PriorDict :=
  ⟨if k ∈ d.keys then d.keys else d.keys ++ [k], Function.update d.val k g⟩

/-- The Gaussian prior density registered by `make_dist_prior`:
`exp(-0.5*(x - m)**2 / sig**2)`. -/
noncomputable def gaussPrior (m sig : ℚ) : ℚ → ℝ :=
  fun x => Real.exp (-(1/2) * ((x : ℝ) - (m : ℝ))^2 / ((sig : ℝ))^2)

/-- The three recognized kernel families; records which method
`self._get_kernel` was bound to. -/
inductive KernelKind where
  | delta
  | gauss
  | hermite
deriving DecidableEq

/-! ## Rescale model -/

/-- A constructed `RescaleModel`: the reference emission line's arrays
(`Lref.wv`, `Lref.f`, `Lref.ef`), the covariance flag, the prior dict, the
bound kernel family, the parameter dict `p` and the step-size dict
`set_scale`. -/
structure RescaleModel where
  LrefWv : List ℚ
  LrefF : List ℝ
  LrefEf : List ℝ
  use_covar : Bool
  prior_prob : PriorDict
  kern : KernelKind
  p : QDict
  set_scale : QDict

/-- Reference pixel spacing `self.Lref.wv[1] - self.Lref.wv[0]`. -/
def wvSpacing (M : RescaleModel) : ℚ := M.LrefWv.getD 1 0 - M.LrefWv.getD 0 0

/-- Embedding of `RescaleModel._prior_limits`: the hard parameter-space guard.
Returns `+∞ : EReal` when tripped and `0` otherwise, following the source's
`if` chain literally (`width/dlambda < 0.5`, `h3`/`h4` outside `[-0.3, 0.3]`). -/
def priorLimits (M : RescaleModel) : EReal :=
  let dlambda := wvSpacing M
  let prior : EReal := 0
  let prior := if 2 < M.p.keys.length then
      (if M.p.val "width" / dlambda < 1/2 then (⊤ : EReal) else prior)
    else prior
  let prior := if 3 < M.p.keys.length then
      (let prior := if M.p.val "h3" < -(3/10) then (⊤ : EReal)
        else if (3/10 : ℚ) < M.p.val "h3" then (⊤ : EReal) else prior
       if M.p.val "h4" < -(3/10) then (⊤ : EReal)
        else if (3/10 : ℚ) < M.p.val "h4" then (⊤ : EReal) else prior)
    else prior
  prior

/-- Embedding of `RescaleModel._add_priors`:
`sum over registered priors of -2*log(prior(p[key]))`.  (`Real.log` is the
totalized logarithm; registered densities are positive in the source's use.) -/
noncomputable def addPriors (M : RescaleModel) : ℝ :=
  (M.prior_prob.keys.map
    (fun k => -2 * Real.log (M.prior_prob.val k (M.p.val k)))).sum

/-- Kernel dispatch `self._get_kernel(x)` according to the bound family. -/
noncomputable def kernelOf (M : RescaleModel) (x : List ℚ) : List ℝ :=
  match M.kern with
  | .delta => deltaK
  | .gauss => gaussK (M.p.val "width") x
  | .hermite => hermiteK (M.p.val "width") (M.p.val "h3") (M.p.val "h4") x

/-- Full discrete convolution, `c[i] = Σ_j a[j] k[i-j]`. -/
noncomputable def convFull (a k : List ℝ) : List ℝ :=
  (List.range (a.length + k.length - 1)).map
    (fun i => ∑ j ∈ Finset.range (i + 1), a.getD j 0 * k.getD (i - j) 0)

/-- `numpy.convolve(a, k, mode="same")`: the centered slice of the full
convolution, of length `max(len a, len k)`. -/
noncomputable def convSame (a k : List ℝ) : List ℝ :=
  ((convFull a k).drop ((min a.length k.length - 1) / 2)).take
    (max a.length k.length)

/-- Overlap mask of `_get_yz`: `(Lref.wv >= l.wv.min()) * (Lref.wv <= l.wv.max())`
after the candidate's wavelengths have been shifted by `-p['shift']`. -/
def overlapMask (M : RescaleModel) (Lwv : List ℚ) : List Bool :=
  let lwv := Lwv.map (fun w => w - M.p.val "shift")
  M.LrefWv.map (fun w => decide (qminD lwv ≤ w) && decide (w ≤ qmaxD lwv))

/-- The masked reference grid `self.Lref.wv[m]` of `_get_yz`. -/
def gridOf (M : RescaleModel) (Lwv : List ℚ) : List ℚ :=
  maskFilter M.LrefWv (overlapMask M Lwv)

/-- Number of reference samples in the overlap region. -/
def overlapCount (M : RescaleModel) (Lwv : List ℚ) : ℕ := (gridOf M Lwv).length

/-- The edge trim of `_get_yz`: `round(0.05 * Lref.wv[m].size)` (Python 2
`round`, then used as a slice index, hence truncated to an integer). -/
def trimOf (M : RescaleModel) (Lwv : List ℚ) : ℕ :=
  (pyround ((1/20 : ℚ) * (overlapCount M Lwv : ℚ))).toNat

/-- The trimmed reference mask `m2` of `_get_yz`:
`(Lref.wv >= Lref.wv[m][trim]) * (Lref.wv < Lref.wv[m][-trim])`. -/
def m2Of (M : RescaleModel) (Lwv : List ℚ) : List Bool :=
  let g := gridOf M Lwv
  let t := trimOf M Lwv
  M.LrefWv.map (fun w => decide (g.getD t 0 ≤ w) && decide (w < pyNegGet g t))

/-- The interpolated, convolved and scaled flux and error arrays of `_get_yz`
before edge trimming (fast mode, `getcovar=False`).  `interp` stands for the
external `Spectrum.interp` of the (shifted) candidate line. -/
noncomputable def yzRawOf (M : RescaleModel) (Lwv : List ℚ)
    (interp : List ℚ → List ℝ × List ℝ) : List ℝ × List ℝ :=
  let grid := gridOf M Lwv
  let yz := interp grid
  let k := kernelOf M grid
  let z1 := (convSame (yz.2.map (fun t => t^2)) (k.map (fun t => t^2))).map
    Real.sqrt
  let y1 := convSame yz.1 k
  let sc : ℝ := ((M.p.val "scale" : ℚ) : ℝ)
  (y1.map (fun t => t * sc), z1.map (fun t => t * sc))

/-- Embedding of `RescaleModel._get_yz` in fast mode: returns
`(y, z**2, m2)` after the edge-trim slices `[trim:-trim]`. -/
noncomputable def getYZfast (M : RescaleModel) (Lwv : List ℚ)
    (interp : List ℚ → List ℝ × List ℝ) : List ℝ × List ℝ × List Bool :=
  let t := trimOf M Lwv
  let yz := yzRawOf M Lwv interp
  (pyTrimSlice yz.1 t, (pyTrimSlice yz.2 t).map (fun z => z^2), m2Of M Lwv)

/-- Embedding of `RescaleModel._get_chi2`:
`sum((Lref.f[m] - y)**2 / (Lref.ef[m]**2 + v))`. -/
noncomputable def getChi2 (M : RescaleModel) (y v : List ℝ) (m2 : List Bool) :
    ℝ :=
  let fm := maskFilter M.LrefF m2
  let em := maskFilter M.LrefEf m2
  (List.zipWith (fun a b => a / b)
    (List.zipWith (fun fr yy => (fr - yy)^2) fm y)
    (List.zipWith (fun er vv => er^2 + vv) em v)).sum

/-- Embedding of `RescaleModel.__call__` in fast (non-covariance) mode:
`chi2 + priors + prior_limits`, valued in `EReal` because `_prior_limits`
can contribute `+∞`. -/
noncomputable def callFast (M : RescaleModel) (Lwv : List ℚ)
    (interp : List ℚ → List ℝ × List ℝ) : EReal :=
  let yzm := getYZfast M Lwv interp
  ((getChi2 M yzm.1 yzm.2.1 yzm.2.2 + addPriors M : ℝ) : EReal) + priorLimits M

/-! ## Chains and empirical priors -/

/-- A stored MCMC chain (`Chain`): rows of parameter values, the
log-likelihood column and the name-to-column mapping. -/
structure Chain where
  pchain : List (List ℚ)
  lnlikely : List ℝ
  index : String → ℕ

/-- The post-burn-in marginal sample of one named parameter, as extracted by
`make_dist_prior`: column `index[pname]` of the chain, dropping the first
`size * burn` entries (float slice index, truncated). -/
def burnColumn (C : Chain) (pname : String) (burn : ℚ) : List ℚ :=
  let col := C.pchain.map (fun row => row.getD (C.index pname) 0)
  col.drop ((⌊(col.length : ℚ) * burn⌋).toNat)

/-- Embedding of `RescaleModel.make_dist_prior`: register a Gaussian prior
built from the 16/50/84 percentiles of the post-burn-in marginal, and set the
model's current parameter value to the 50th percentile. -/
noncomputable def makeDistPrior (M : RescaleModel) (C : Chain) (pname : String)
    (burn : ℚ) : RescaleModel :=
  let dist := burnColumn C pname burn
  let c1 := npPercentile dist 16
  let m := npPercentile dist 50
  let c2 := npPercentile dist 84
  { M with
    prior_prob := M.prior_prob.set pname (gaussPrior m ((c2 - c1) / 2)),
    p := M.p.set pname m }

/-! ## Construction (`RescaleModel.__init__`) -/

/-- The attributes `RescaleModel.__init__` may or may not set, depending on
the kernel name: unset attributes are `none` (in Python the attribute simply
does not exist on the object). -/
structure InitModel where
  LrefWv : List ℚ
  use_covar : Bool
  prior_prob : PriorDict
  kernelname : String
  kernelFn : Option KernelKind
  p : Option QDict
  set_scale : Option QDict

/-- Embedding of `RescaleModel.__init__(Lref, kernel, fit_with_covar)`.  The
`if / elif` chain for `Delta`/`Gauss` is followed by a separate `if` for
`Hermite`, exactly as in the source; an unrecognized kernel name leaves
`_get_kernel`, `p` and `set_scale` unset. -/
def initModel (LrefWv : List ℚ) (kernel : String) (fwc : Bool) : InitModel :=
  let base : InitModel :=
    { LrefWv := LrefWv, use_covar := fwc,
      prior_prob := ⟨[], fun _ => fun _ => 0⟩,
      kernelname := kernel, kernelFn := none, p := none, set_scale := none }
  let m1 :=
    if kernel = "Delta" then
      { base with
        kernelFn := some .delta,
        p := some ⟨["shift", "scale"],
          fun k => if k = "shift" then 1/10000 else
            if k = "scale" then 1 else 0⟩,
        set_scale := some ⟨["shift", "scale"],
          fun k => if k = "shift" then 1/20 else
            if k = "scale" then 1/50 else 0⟩ }
    else if kernel = "Gauss" then
      let wmin : ℚ := 51/100 * (LrefWv.getD 1 0 - LrefWv.getD 0 0)
      { base with
        kernelFn := some .gauss,
        p := some ⟨["shift", "scale", "width"],
          fun k => if k = "shift" then 1/10000 else
            if k = "scale" then 1 else
            if k = "width" then wmin else 0⟩,
        set_scale := some ⟨["shift", "scale", "width"],
          fun k => if k = "shift" then 1/20 else
            if k = "scale" then 1/50 else
            if k = "width" then 3/10 else 0⟩ }
    else base
  if kernel = "Hermite" then
    let wmin : ℚ := 46/100 * (LrefWv.getD 1 0 - LrefWv.getD 0 0)
    { m1 with
      kernelFn := some .hermite,
      p := some ⟨["shift", "scale", "width", "h3", "h4"],
        fun k => if k = "shift" then 1/10000 else
          if k = "scale" then 1 else
          if k = "width" then wmin else 0⟩,
      set_scale := some ⟨["shift", "scale", "width", "h3", "h4"],
        fun k => if k = "shift" then 1/20 else
          if k = "scale" then 1/50 else
          if k = "width" then 3/10 else
          if k = "h3" then 3/100 else
          if k = "h4" then 3/100 else 0⟩ }
  else m1

/-- Construction wrapped in `Except`, recording whether `__init__` raises an
exception.  The source's `__init__` contains no `raise` and all statements it
executes are attribute assignments, so construction returns normally for every
kernel string. -/
def initE (LrefWv : List ℚ) (kernel : String) (fwc : Bool) :
    Except String InitModel :=
  Except.ok (initModel LrefWv kernel fwc)

/-! ## Covariance propagator (`get_covarmatrix`) -/

/-- `sp.searchsorted(x, v)` (left side) for sorted `x`: the number of
elements of `x` strictly below `v`. -/
def searchsortedQ (x : List ℚ) (v : ℚ) : ℕ :=
  x.countP (fun a => decide (a < v))

/-- Python integer indexing with wrap-around for negative indices
(`z[i-1]` with `i = 0` reads `z[-1]`, the last element). -/
def pyGetQ (l : List ℚ) (i : ℤ) : ℚ :=
  if i < 0 then l.getD (l.length - i.natAbs) 0 else l.getD i.toNat 0

/-- Linear-interpolation variance of one target point in `get_covarmatrix`:
`f² z[isort]² + (1-f)² z[isort-1]²` with
`f = (xi - x[isort-1]) / (x[isort] - x[isort-1])`. -/
def interpVarQ (x z : List ℚ) (xi : ℚ) : ℚ :=
  let i := searchsortedQ x xi
  let f : ℚ := (xi - pyGetQ x ((i : ℤ) - 1)) /
    (pyGetQ x (i : ℤ) - pyGetQ x ((i : ℤ) - 1))
  f^2 * (pyGetQ z (i : ℤ))^2 + (1 - f)^2 * (pyGetQ z ((i : ℤ) - 1))^2

/-- The interpolated error `z2` of `get_covarmatrix` (the source takes a
square root which is later squared again). -/
noncomputable def z2fun (x z xinterp : List ℚ) (t : ℕ) : ℝ :=
  Real.sqrt ((interpVarQ x z (xinterp.getD t 0) : ℚ) : ℝ)

/-- Minimum of a list of naturals (numpy `.min()`), `0` if empty. -/
def natMinD : List ℕ → ℕ
  | [] => 0
  | a :: t => t.foldl min a

/-- Maximum of a list of naturals (numpy `.max()`), `0` if empty. -/
def natMaxD : List ℕ → ℕ
  | [] => 0
  | a :: t => t.foldl max a

/-- The lag-one covariance terms `diag1 = f*(1-f) * z[isort.min():isort.max()]²`
of `get_covarmatrix` (elementwise, truncating to the shorter list). -/
def diag1Q (x z xinterp : List ℚ) : List ℚ :=
  let isort := xinterp.map (searchsortedQ x)
  let flist := xinterp.map (fun xi =>
    (xi - pyGetQ x ((searchsortedQ x xi : ℤ) - 1)) /
      (pyGetQ x (searchsortedQ x xi : ℤ) - pyGetQ x ((searchsortedQ x xi : ℤ) - 1)))
  let zslice := (z.drop (natMinD isort)).take (natMaxD isort - natMinD isort)
  List.zipWith (fun fv zv => fv * (1 - fv) * zv^2) flist.dropLast zslice

/-- The interpolation covariance matrix `covar1`: variance `z2²` on the
diagonal and `diag1` on the first super- and sub-diagonals. -/
noncomputable def covar1fun (x z xinterp : List ℚ) : ℕ → ℕ → ℝ :=
  fun i j =>
    if i = j then (z2fun x z xinterp i)^2
    else if j = i + 1 then (((diag1Q x z xinterp).getD i 0 : ℚ) : ℝ)
    else if i = j + 1 then (((diag1Q x z xinterp).getD j 0 : ℚ) : ℝ)
    else 0

/-- Kernel padding of `get_covarmatrix`: extend `k` to the size of the
covariance matrix when it is one or two entries short. -/
noncomputable def padKernel (k : List ℝ) (n : ℕ) : List ℝ :=
  if k.length = n - 2 then 0 :: k ++ [0]
  else if k.length = n - 1 then 0 :: k
  else k

/-- The wrapped kernel `sp.r_[k[cent::], k[0:cent]]`. -/
noncomputable def wrapKernel (k : List ℝ) : List ℝ :=
  k.drop (k.length / 2) ++ k.take (k.length / 2)

/-- `sp.roll(l, i)` as a function of the index: entry `a` of `l` rolled right
by `i` positions. -/
noncomputable def rollFun (l : List ℝ) (i : ℕ) : ℕ → ℝ :=
  fun a =>
    if l.length = 0 then 0
    else l.getD ((a + l.length - i % l.length) % l.length) 0

/-- The rolled-and-truncated kernel row `k_i` of the convolution-covariance
loop: entries at or beyond `cent + i` (wrapping around the end) are zeroed. -/
noncomputable def trimKernel (l : List ℝ) (cent i : ℕ) : ℕ → ℝ :=
  fun a =>
    if cent + i ≤ l.length then
      (if cent + i ≤ a then 0 else rollFun l i a)
    else
      (if a < cent + i - l.length then 0 else rollFun l i a)

/-- The quadratic form `k_i * covar1 * k_jᵀ` over an `n × n` matrix. -/
noncomputable def qform (c1 : ℕ → ℕ → ℝ) (k1 k2 : ℕ → ℝ) (n : ℕ) : ℝ :=
  ∑ a ∈ Finset.range n, ∑ b ∈ Finset.range n, k1 a * c1 a b * k2 b

/-- Pointwise update of a two-index function (one matrix store). -/
noncomputable def upd2 (g : ℕ → ℕ → ℝ) (i j : ℕ) (v : ℝ) : ℕ → ℕ → ℝ :=
  fun a b => if a = i ∧ b = j then v else g a b

/-- The double loop of `get_covarmatrix` filling `covar2[i, i+n]` for
`n < breakwidth` (with the column index clamped to the last column). -/
noncomputable def covar2pre (n B : ℕ) (c1 : ℕ → ℕ → ℝ) (kw : List ℝ)
    (cent : ℕ) : ℕ → ℕ → ℝ :=
  (List.range n).foldl
    (fun acc i =>
      (List.range B).foldl
        (fun acc2 s =>
          let j := min (i + s) (n - 1)
          upd2 acc2 i j
            (qform c1 (trimKernel kw cent i) (trimKernel kw cent j) n))
        acc)
    (fun _ _ => 0)

/-- Embedding of `get_covarmatrix(x, xinterp, z, k, breakwidth)` as a function
on indices.  For a length-1 kernel it is the diagonal matrix of interpolation
variances; otherwise the convolution covariance is mirrored
(`covar2 += covar2.T`) and the diagonal halved. -/
noncomputable def get_covarmatrix (x xinterp z : List ℚ) (k : List ℝ)
    (breakwidth : ℚ) : ℕ → ℕ → ℝ :=
  if k.length = 1 then
    fun i j => if i = j then (z2fun x z xinterp i)^2 else 0
  else
    let n := xinterp.length
    let kp := padKernel k n
    let kw := wrapKernel kp
    let pre := covar2pre n (⌊breakwidth⌋).toNat (covar1fun x z xinterp) kw
      (kp.length / 2)
    fun i j =>
      if i = j then (pre i j + pre j i) / 2 else pre i j + pre j i

/-! ## Sampler (`metro_hast`) -/

/-- One trial's random inputs: the proposed parameter set (the source draws it
with `M.step()` from `sp.randn()`) and the uniform draw `r = sp.rand()` used
in the probabilistic acceptance test. -/
structure MHTrial (P : Type) where
  prop : P
  r : ℝ

/-- The sampler's mutable state: the caller's model parameters `M.p` (mutated
in place by the source), the current and best chi2, the best parameters, the
acceptance counter and the chain records `(lnlikely, parameters)`. -/
structure MHState (P : Type) where
  Mp : P
  chi2 : ℝ
  chi2best : ℝ
  pbest : P
  accept : ℕ
  chain : List (ℝ × P)

/-- Initial sampler state: `chi2 = chi2best = 1.e12`, zero acceptances and the
pre-loop chain record `c.add(M, M(D))`. -/
noncomputable def mhInit {P : Type} (eval : P → ℝ) (p0 : P) : MHState P :=
  { Mp := p0, chi2 := 1000000000000, chi2best := 1000000000000,
    pbest := p0, accept := 0, chain := [(eval p0, p0)] }

/-- One iteration of the `metro_hast` loop.  `eval` embeds `Mtry(D)` (the
proposal is scored on the working deep copy `Mtry`, leaving the current state
untouched unless accepted). -/
noncomputable def mhStep {P : Type} (eval : P → ℝ) (s : MHState P)
    (t : MHTrial P) : MHState P :=
  let chi2try := eval t.prop
  if chi2try < s.chi2 then
    let s1 : MHState P :=
      { s with
        Mp := t.prop, chi2 := chi2try, accept := s.accept + 1,
        chain := s.chain ++ [(chi2try, t.prop)] }
    if chi2try < s.chi2best then
      { s1 with chi2best := chi2try, pbest := t.prop }
    else s1
  else
    if t.r ≤ Real.exp (-chi2try / s.chi2) then
      { s with
        Mp := t.prop, chi2 := chi2try, accept := s.accept + 1,
        chain := s.chain ++ [(chi2try, t.prop)] }
    else
      { s with chain := s.chain ++ [(s.chi2, s.Mp)] }

/-- Embedding of `metro_hast(ntrial, D, M)`: fold the loop body over the list
of per-trial random inputs (`ntrial = trials.length`). -/
noncomputable def metroHast {P : Type} (eval : P → ℝ) (p0 : P)
    (trials : List (MHTrial P)) : MHState P :=
  trials.foldl (mhStep eval) (mhInit eval p0)

/-! ## Concrete instances and spec-side comparison definitions -/

/-- The condition under which the source's `_prior_limits` guard trips
(collected from its `if` chain): more than two parameters and
`width/dlambda < 0.5`, or more than three parameters and `h3` or `h4`
outside `[-0.3, 0.3]`. -/
def guardCond (M : RescaleModel) : Prop :=
  (2 < M.p.keys.length ∧ M.p.val "width" / wvSpacing M < 1/2) ∨
  (3 < M.p.keys.length ∧ (M.p.val "h3" < -(3/10) ∨ (3/10 : ℚ) < M.p.val "h3" ∨
    M.p.val "h4" < -(3/10) ∨ (3/10 : ℚ) < M.p.val "h4"))

instance (M : RescaleModel) : Decidable (guardCond M) := by
  unfold guardCond; infer_instance

/-- The guard asserted by the specification sentence behind claim C2, stated
from the spec's words for comparison with `guardCond`: width below a
family-dependent floor — `0.51 ×` pixel spacing for Gauss, `0.46 ×` for
Hermite — or `h3`/`h4` outside `[-0.3, 0.3]`. -/
def specC2Guard (M : RescaleModel) : Prop :=
  (M.kern = .gauss ∧
    (M.p.val "width" < 51/100 * wvSpacing M ∨
      M.p.val "h3" < -(3/10) ∨ (3/10 : ℚ) < M.p.val "h3" ∨
      M.p.val "h4" < -(3/10) ∨ (3/10 : ℚ) < M.p.val "h4")) ∨
  (M.kern = .hermite ∧
    (M.p.val "width" < 46/100 * wvSpacing M ∨
      M.p.val "h3" < -(3/10) ∨ (3/10 : ℚ) < M.p.val "h3" ∨
      M.p.val "h4" < -(3/10) ∨ (3/10 : ℚ) < M.p.val "h4"))

instance (M : RescaleModel) : Decidable (specC2Guard M) := by
  unfold specC2Guard; infer_instance

/-- A trivial external interpolator (constant zero flux and error), used to
instantiate likelihood evaluations at concrete inputs. -/
noncomputable def interp0 : List ℚ → List ℝ × List ℝ :=
  fun g => (g.map (fun _ => 0), g.map (fun _ => 0))

/-- A Hermite-family model on the reference grid `[0, 1]` (pixel spacing 1)
whose width parameter is `0.48` — at least `0.46 ×` the spacing, yet below the
code's `0.5 ×` floor. -/
noncomputable def hermiteCexModel : RescaleModel :=
  { LrefWv := [0, 1], LrefF := [], LrefEf := [], use_covar := false,
    prior_prob := ⟨[], fun _ => fun _ => 0⟩, kern := .hermite,
    p := ⟨["shift", "scale", "width", "h3", "h4"],
      fun k => if k = "shift" then 0 else if k = "scale" then 1 else
        if k = "width" then 48/100 else 0⟩,
    set_scale := ⟨["shift", "scale", "width", "h3", "h4"], fun _ => 0⟩ }

/-- A Delta-family model on the reference grid `[0, 1, 2, 3, 4]` with the
constructor's default parameters; after the default shift `1.0e-4` the
overlap with an identical candidate grid has 4 samples. -/
noncomputable def smallOverlapModel : RescaleModel :=
  { LrefWv := [0, 1, 2, 3, 4], LrefF := [], LrefEf := [], use_covar := false,
    prior_prob := ⟨[], fun _ => fun _ => 0⟩, kern := .delta,
    p := ⟨["shift", "scale"],
      fun k => if k = "shift" then 1/10000 else
        if k = "scale" then 1 else 0⟩,
    set_scale := ⟨["shift", "scale"],
      fun k => if k = "shift" then 1/20 else
        if k = "scale" then 1/50 else 0⟩ }

/-- A four-record chain over the single parameter `"shift"` with values
`1, 2, 3, 4`; after a 0.5 burn-in the marginal is `[3, 4]`. -/
noncomputable def medianChain : Chain :=
  ⟨[[1], [2], [3], [4]], [0, 0, 0, 0], fun _ => 0⟩

end Mapspec

namespace Mapspec

/-! ## Helper lemmas -/

/-- Every iteration of the `metro_hast` loop appends exactly one chain record,
namely the post-iteration current state. -/
theorem mhStep_chain_snoc {P : Type} (eval : P → ℝ) (s : MHState P)
    (t : MHTrial P) :
    (mhStep eval s t).chain =
      s.chain ++ [((mhStep eval s t).chi2, (mhStep eval s t).Mp)] := by
  unfold mhStep
  by_cases h1 : eval t.prop < s.chi2
  · by_cases h2 : eval t.prop < s.chi2best <;> simp [h1, h2]
  · by_cases h2 : t.r ≤ Real.exp (-eval t.prop / s.chi2) <;> simp [h1, h2]

/-- Length of the kernel offset range: `2*(n//2) - 1` (natural subtraction). -/
theorem nprange_length (n : ℕ) : (nprange n).length = 2 * (n / 2) - 1 := by
  simp only [nprange, List.length_map, List.length_range]
  omega

end Mapspec

/-- Claim C1: in every iteration of `metro_hast`, the proposal is accepted
(current parameters and chi2 replaced by the proposal's, acceptance counter
incremented) exactly when its chi2 is below the current chi2 or the fresh
uniform draw `r` satisfies `r <= exp(-chi2_proposed / chi2_current)` — the
non-standard ratio, with the random draws modelled as inputs. -/
theorem Mapspec.mhStep_accept_iff {P : Type} (eval : P → ℝ)
    (s : Mapspec.MHState P) (t : Mapspec.MHTrial P) :
    ((Mapspec.mhStep eval s t).accept = s.accept + 1 ∧
      (Mapspec.mhStep eval s t).Mp = t.prop ∧
      (Mapspec.mhStep eval s t).chi2 = eval t.prop) ↔
    (eval t.prop < s.chi2 ∨
      t.r ≤ Real.exp (-(eval t.prop) / s.chi2)) := by
  unfold Mapspec.mhStep
  by_cases h1 : eval t.prop < s.chi2
  · by_cases h2 : eval t.prop < s.chi2best <;> simp [h1, h2]
  · by_cases h2 : t.r ≤ Real.exp (-eval t.prop / s.chi2) <;> simp [h1, h2]

/-- Claim C6 (amended): every trial appends exactly one record — the
post-iteration current state — so a run over `ntrial` trials yields
`ntrial + 1` chain records including the initial pre-loop record.  (On a
rejection the appended record carries the current parameters and the current
chi2 *variable*, which can differ from the previous record's chi2 for
rejections occurring before the first acceptance.) -/
theorem Mapspec.metroHast_chain_records {P : Type} (eval : P → ℝ) (p0 : P)
    (trials : List (Mapspec.MHTrial P)) :
    (Mapspec.metroHast eval p0 trials).chain.length = trials.length + 1 ∧
    ∀ (s : Mapspec.MHState P) (t : Mapspec.MHTrial P),
      (Mapspec.mhStep eval s t).chain =
        s.chain ++ [((Mapspec.mhStep eval s t).chi2,
          (Mapspec.mhStep eval s t).Mp)] := by
  constructor
  · have key : ∀ (ts : List (Mapspec.MHTrial P)) (s : Mapspec.MHState P),
        (ts.foldl (Mapspec.mhStep eval) s).chain.length =
          s.chain.length + ts.length := by
      intro ts
      induction ts with
      | nil => intro s; simp
      | cons t ts ih =>
        intro s
        have h := Mapspec.mhStep_chain_snoc eval s t
        simp only [List.foldl_cons, ih, h, List.length_append,
          List.length_cons, List.length_nil]
        omega
    rw [Mapspec.metroHast, key]
    simp [Mapspec.mhInit]
    omega
  · exact Mapspec.mhStep_chain_snoc eval

/-- Claim C6 counterexample: with a proposal scoring `2e12` and uniform draw
`r = 1`, the single trial is a rejection (acceptance counter stays 0), yet the
appended record's chi2 is the loop initializer `1e12`, not the previous
(pre-loop) record's chi2 `2e12` — so a rejection record need not be identical
to the previous record. -/
theorem Mapspec.metroHast_reject_record_cex :
    ((Mapspec.metroHast (fun _ => (2000000000000 : ℝ)) (0 : ℚ)
        [⟨1, 1⟩]).chain.getD 1 (0, 0)).1 ≠
      ((Mapspec.metroHast (fun _ => (2000000000000 : ℝ)) (0 : ℚ)
        [⟨1, 1⟩]).chain.getD 0 (0, 0)).1 ∧
    (Mapspec.metroHast (fun _ => (2000000000000 : ℝ)) (0 : ℚ)
      [⟨1, 1⟩]).accept = 0 := by
  have h1 : ¬((2000000000000 : ℝ) < 1000000000000) := by norm_num
  have h2 : ¬((1 : ℝ) ≤ Real.exp (-(2000000000000 : ℝ) / 1000000000000)) := by
    have hq : (-(2000000000000 : ℝ) / 1000000000000) = -2 := by norm_num
    rw [hq]
    have he : Real.exp (-2) < 1 := by
      calc Real.exp (-2) < Real.exp 0 := Real.exp_lt_exp.mpr (by norm_num)
        _ = 1 := Real.exp_zero
    linarith
  constructor
  · simp [Mapspec.metroHast, Mapspec.mhInit, Mapspec.mhStep, h1, h2]
  · simp [Mapspec.metroHast, Mapspec.mhInit, Mapspec.mhStep, h1, h2]

/-- Claim C8 (amended): `metro_hast` mutates the caller's model parameters in
place on acceptance (`M.p = deepcopy(Mtry.p)`), so after the run the model's
parameter set equals the parameters of the last chain record (the final
current state); proposals are scored on the deep working copy. -/
theorem Mapspec.metroHast_final_params {P : Type} (eval : P → ℝ) (p0 : P)
    (trials : List (Mapspec.MHTrial P)) :
    ((Mapspec.metroHast eval p0 trials).chain.getLast?).map Prod.snd =
      some ((Mapspec.metroHast eval p0 trials).Mp) := by
  have key : ∀ (ts : List (Mapspec.MHTrial P)) (s : Mapspec.MHState P),
      (s.chain.getLast?).map Prod.snd = some s.Mp →
      ((ts.foldl (Mapspec.mhStep eval) s).chain.getLast?).map Prod.snd =
        some ((ts.foldl (Mapspec.mhStep eval) s).Mp) := by
    intro ts
    induction ts with
    | nil => intro s h; simpa using h
    | cons t ts ih =>
      intro s _
      apply ih
      rw [Mapspec.mhStep_chain_snoc]
      simp
  exact key trials _ (by simp [Mapspec.mhInit])

/-- Claim C8 counterexample: a run whose single trial is accepted leaves the
caller's parameter set changed — after the call `M.p` is the accepted
proposal `1`, not the initial `0`, refuting "never mutated in place". -/
theorem Mapspec.metroHast_mutates_params_cex :
    (Mapspec.metroHast (fun _ => (1 : ℝ)) (0 : ℚ) [⟨1, 0⟩]).Mp ≠ 0 := by
  have h1 : (1 : ℝ) < 1000000000000 := by norm_num
  simp [Mapspec.metroHast, Mapspec.mhInit, Mapspec.mhStep, h1]

/-- Claim C7: the covariance matrix returned by `get_covarmatrix` is
symmetric, both in the Delta (length-1 kernel, diagonal) branch and in the
general branch where `covar2 += covar2.T` is followed by halving the
diagonal. -/
theorem Mapspec.get_covarmatrix_symm (x xinterp z : List ℚ) (k : List ℝ)
    (bw : ℚ) (i j : ℕ) :
    Mapspec.get_covarmatrix x xinterp z k bw i j =
      Mapspec.get_covarmatrix x xinterp z k bw j i := by
  by_cases hij : i = j
  · subst hij; rfl
  · have hji : ¬ j = i := fun h => hij h.symm
    by_cases hk : k.length = 1 <;>
      simp [Mapspec.get_covarmatrix, hk, hij, hji, add_comm]

/-- Claim C5 counterexample: for a grid of length 4 the Gauss kernel has
length 3 (namely `2*(4//2) - 1`), not the grid length 4. -/
theorem Mapspec.gaussK_length_cex :
    (Mapspec.gaussK 1 [0, 1, 2, 3]).length ≠ 4 := by
  have h : (Mapspec.gaussK 1 [0, 1, 2, 3]).length =
      (Mapspec.nprange ([(0 : ℚ), 1, 2, 3]).length).length := by
    simp only [Mapspec.gaussK, Mapspec.gaussRaw, List.length_map]
  rw [h]
  decide

/-- Claim C5 (amended): the kernel length is odd but does not equal the grid
length: the Delta kernel has length 1, and for a grid of length `n ≥ 2` the
Gauss and Hermite kernels have length `2*(n//2) - 1` (which is `n-1` for even
`n` and `n-2` for odd `n`). -/
theorem Mapspec.kernel_length_amended (x : List ℚ) (w h3 h4 : ℚ)
    (h2 : 2 ≤ x.length) :
    Mapspec.deltaK.length = 1 ∧
    (Mapspec.gaussK w x).length = 2 * (x.length / 2) - 1 ∧
    (Mapspec.hermiteK w h3 h4 x).length = 2 * (x.length / 2) - 1 ∧
    Odd (Mapspec.gaussK w x).length ∧
    Odd (Mapspec.hermiteK w h3 h4 x).length ∧
    Odd Mapspec.deltaK.length := by
  have hg : (Mapspec.gaussK w x).length = 2 * (x.length / 2) - 1 := by
    simp only [Mapspec.gaussK, Mapspec.gaussRaw, List.length_map,
      Mapspec.nprange_length]
  have hh : (Mapspec.hermiteK w h3 h4 x).length = 2 * (x.length / 2) - 1 := by
    simp only [Mapspec.hermiteK, Mapspec.hermiteRaw, List.length_map,
      Mapspec.nprange_length]
  have hodd : Odd (2 * (x.length / 2) - 1) := by
    refine ⟨x.length / 2 - 1, ?_⟩
    omega
  exact ⟨rfl, hg, hh, hg ▸ hodd, hh ▸ hodd, ⟨0, rfl⟩⟩

/-- Claim C5 witness: the amended statement at the concrete grid
`[0, 1, 2, 3]` (length 4): kernels of odd length `3 = 2*(4//2) - 1`. -/
theorem Mapspec.kernel_length_amended_witness :
    2 ≤ ([(0 : ℚ), 1, 2, 3]).length ∧
    (Mapspec.deltaK.length = 1 ∧
     (Mapspec.gaussK 1 [(0 : ℚ), 1, 2, 3]).length =
       2 * (([(0 : ℚ), 1, 2, 3]).length / 2) - 1 ∧
     (Mapspec.hermiteK 1 0 0 [(0 : ℚ), 1, 2, 3]).length =
       2 * (([(0 : ℚ), 1, 2, 3]).length / 2) - 1 ∧
     Odd (Mapspec.gaussK 1 [(0 : ℚ), 1, 2, 3]).length ∧
     Odd (Mapspec.hermiteK 1 0 0 [(0 : ℚ), 1, 2, 3]).length ∧
     Odd Mapspec.deltaK.length) :=
  ⟨by decide, Mapspec.kernel_length_amended [(0 : ℚ), 1, 2, 3] 1 0 0 (by decide)⟩

/-- Claim C3 (amended): construction never raises — `__init__` returns
normally for every kernel string — and the parameter attributes are set
exactly for the three recognized family names; for an unrecognized name the
object comes back without `p`, `set_scale` or a bound kernel, so the failure
surfaces only on first use. -/
theorem Mapspec.initModel_no_failure (LrefWv : List ℚ) (kernel : String)
    (fwc : Bool) :
    Mapspec.initE LrefWv kernel fwc =
      Except.ok (Mapspec.initModel LrefWv kernel fwc) ∧
    ((Mapspec.initModel LrefWv kernel fwc).p.isSome ↔
      kernel = "Delta" ∨ kernel = "Gauss" ∨ kernel = "Hermite") := by
  refine ⟨rfl, ?_⟩
  unfold Mapspec.initModel
  by_cases h1 : kernel = "Delta" <;> by_cases h2 : kernel = "Gauss" <;>
    by_cases h3 : kernel = "Hermite" <;> simp [h1, h2, h3]

/-- Claim C3 counterexample: constructing with the unrecognized kernel name
`"Foo"` does not fail — `__init__` returns normally (`Except.ok`), merely
leaving the parameter dictionary unset. -/
theorem Mapspec.initE_unknown_ok_cex :
    Mapspec.initE [0, 1] "Foo" false =
      Except.ok (Mapspec.initModel [0, 1] "Foo" false) ∧
    (Mapspec.initModel [0, 1] "Foo" false).p = none := by
  constructor
  · rfl
  · simp [Mapspec.initModel]

/-- The prior-limit guard only ever contributes `+∞` or `0`. -/
theorem Mapspec.priorLimits_top_or_zero (M : Mapspec.RescaleModel) :
    Mapspec.priorLimits M = ⊤ ∨ Mapspec.priorLimits M = 0 := by
  simp only [Mapspec.priorLimits]
  split_ifs <;> simp

/-- Characterization of the prior-limit guard: it contributes `+∞` exactly
under `guardCond`. -/
theorem Mapspec.priorLimits_eq_top_iff (M : Mapspec.RescaleModel) :
    Mapspec.priorLimits M = ⊤ ↔ Mapspec.guardCond M := by
  unfold Mapspec.guardCond
  simp only [Mapspec.priorLimits]
  split_ifs <;> simp_all

/-- Claim C2 (amended): a fast-mode likelihood evaluation returns `+∞`
exactly when the code's guard trips, i.e. when the width parameter (when
present, `len(p) > 2`) is below `0.5 ×` the reference pixel spacing — the
same factor for the Gauss and Hermite families — or when `h3`/`h4` (when
present, `len(p) > 3`) leave `[-0.3, 0.3]`; evaluations inside these bounds
receive no infinite penalty.  (The spec's `0.51`/`0.46` factors are the
constructor's initial width values, not the guard's floor.) -/
theorem Mapspec.callFast_eq_top_iff (M : Mapspec.RescaleModel) (Lwv : List ℚ)
    (interp : List ℚ → List ℝ × List ℝ) :
    Mapspec.callFast M Lwv interp = ⊤ ↔ Mapspec.guardCond M := by
  have hiff := Mapspec.priorLimits_eq_top_iff M
  simp only [Mapspec.callFast]
  rcases Mapspec.priorLimits_top_or_zero M with h | h
  · rw [h, EReal.coe_add_top]
    exact ⟨fun _ => hiff.mp h, fun _ => rfl⟩
  · rw [h, add_zero]
    constructor
    · intro hc; exact absurd hc (EReal.coe_ne_top _)
    · intro hg
      rw [hiff.mpr hg] at h
      exact absurd h (by simp)

/-- Claim C2 counterexample: for a Hermite model with width `0.48 ×` the
reference pixel spacing (inside the spec's claimed `0.46 ×` floor, `h3`/`h4`
in bounds, so the claim predicts no infinite penalty), the evaluation is
nevertheless `+∞` — the code's floor is `0.5 ×` the spacing for both
families. -/
theorem Mapspec.callFast_spec_guard_cex :
    ¬ (Mapspec.callFast Mapspec.hermiteCexModel [0, 1] Mapspec.interp0 = ⊤ ↔
        Mapspec.specC2Guard Mapspec.hermiteCexModel) := by
  intro hiff
  have htop : Mapspec.callFast Mapspec.hermiteCexModel [0, 1]
      Mapspec.interp0 = ⊤ := by
    simp only [Mapspec.callFast]
    have hpl : Mapspec.priorLimits Mapspec.hermiteCexModel = ⊤ :=
      (Mapspec.priorLimits_eq_top_iff _).mpr (by
        simp [Mapspec.guardCond, Mapspec.hermiteCexModel,
          Mapspec.wvSpacing] <;> norm_num)
    rw [hpl, EReal.coe_add_top]
  have hspec := hiff.mp htop
  have : ¬ Mapspec.specC2Guard Mapspec.hermiteCexModel := by
    simp [Mapspec.specC2Guard, Mapspec.hermiteCexModel,
      Mapspec.wvSpacing] <;> norm_num
  exact this hspec

/-- For at most nine overlap samples the edge trim `round(0.05 * N)` is zero. -/
theorem Mapspec.trimOf_eq_zero (M : Mapspec.RescaleModel) (Lwv : List ℚ)
    (h9 : Mapspec.overlapCount M Lwv ≤ 9) : Mapspec.trimOf M Lwv = 0 := by
  have h0 : (0 : ℚ) ≤ (Mapspec.overlapCount M Lwv : ℚ) := Nat.cast_nonneg _
  have h9q : (Mapspec.overlapCount M Lwv : ℚ) ≤ 9 := by exact_mod_cast h9
  unfold Mapspec.trimOf Mapspec.pyround
  have hfl : ⌊(1/20 : ℚ) * (Mapspec.overlapCount M Lwv : ℚ) + 1/2⌋ = 0 := by
    rw [Int.floor_eq_zero_iff, Set.mem_Ico]
    constructor
    · linarith
    · linarith
  rw [hfl]
  rfl

/-- Claim C10: in fast mode, whenever the overlap has `N ≤ 9` samples (so
`round(0.05*N) = 0`), the `[0:-0]` trim slices empty the flux and variance
arrays and the reference mask `m2` is all false; hence the chi-square sum is
`0` and the returned negative log likelihood consists of the prior terms
alone, regardless of the data. -/
theorem Mapspec.callFast_small_overlap (M : Mapspec.RescaleModel)
    (Lwv : List ℚ) (interp : List ℚ → List ℝ × List ℝ)
    (h1 : 1 ≤ Mapspec.overlapCount M Lwv)
    (h9 : Mapspec.overlapCount M Lwv ≤ 9) :
    Mapspec.callFast M Lwv interp =
      ((Mapspec.addPriors M : ℝ) : EReal) + Mapspec.priorLimits M ∧
    (Mapspec.getYZfast M Lwv interp).1 = [] ∧
    (Mapspec.getYZfast M Lwv interp).2.1 = [] ∧
    (∀ b ∈ (Mapspec.getYZfast M Lwv interp).2.2, b = false) ∧
    Mapspec.getChi2 M (Mapspec.getYZfast M Lwv interp).1
      (Mapspec.getYZfast M Lwv interp).2.1
      (Mapspec.getYZfast M Lwv interp).2.2 = 0 := by
  have ht := Mapspec.trimOf_eq_zero M Lwv h9
  have hy : (Mapspec.getYZfast M Lwv interp).1 = [] := by
    simp [Mapspec.getYZfast, ht, Mapspec.pyTrimSlice]
  have hz : (Mapspec.getYZfast M Lwv interp).2.1 = [] := by
    simp [Mapspec.getYZfast, ht, Mapspec.pyTrimSlice]
  have hm : (Mapspec.getYZfast M Lwv interp).2.2 = Mapspec.m2Of M Lwv := by
    simp [Mapspec.getYZfast]
  have hm2 : ∀ b ∈ Mapspec.m2Of M Lwv, b = false := by
    intro b hb
    simp only [Mapspec.m2Of, ht, List.mem_map] at hb
    obtain ⟨w, _, hbe⟩ := hb
    rw [← hbe]
    by_cases hc : (Mapspec.gridOf M Lwv).getD 0 0 ≤ w
    · simp [Mapspec.pyNegGet, hc, not_lt.mpr hc]
    · simp [Mapspec.pyNegGet, hc]
  have hchi : Mapspec.getChi2 M [] [] (Mapspec.m2Of M Lwv) = 0 := by
    simp [Mapspec.getChi2]
  refine ⟨?_, hy, hz, ?_, ?_⟩
  · simp only [Mapspec.callFast]
    rw [hy, hz, hm, hchi, zero_add]
  · rw [hm]; exact hm2
  · rw [hy, hz, hm]; exact hchi

/-- Concrete overlap count for the witness model: the default shift `1.0e-4`
drops the last reference sample, leaving 4 of 5. -/
theorem Mapspec.smallOverlap_count :
    Mapspec.overlapCount Mapspec.smallOverlapModel [0, 1, 2, 3, 4] = 4 := by
  norm_num [Mapspec.overlapCount, Mapspec.gridOf, Mapspec.maskFilter,
    Mapspec.overlapMask, Mapspec.qminD, Mapspec.qmaxD,
    Mapspec.smallOverlapModel, min_def, max_def, List.zip]
  simp

/-- Claim C10 witness: the Delta model on reference grid `[0,1,2,3,4]` with
default shift `1.0e-4` has a 4-sample overlap with the identical candidate
grid, and its fast-mode evaluation reduces to the prior terms alone. -/
theorem Mapspec.callFast_small_overlap_witness :
    (1 ≤ Mapspec.overlapCount Mapspec.smallOverlapModel [0, 1, 2, 3, 4] ∧
     Mapspec.overlapCount Mapspec.smallOverlapModel [0, 1, 2, 3, 4] ≤ 9) ∧
    (Mapspec.callFast Mapspec.smallOverlapModel [0, 1, 2, 3, 4]
        Mapspec.interp0 =
      ((Mapspec.addPriors Mapspec.smallOverlapModel : ℝ) : EReal) +
        Mapspec.priorLimits Mapspec.smallOverlapModel ∧
    (Mapspec.getYZfast Mapspec.smallOverlapModel [0, 1, 2, 3, 4]
        Mapspec.interp0).1 = [] ∧
    (Mapspec.getYZfast Mapspec.smallOverlapModel [0, 1, 2, 3, 4]
        Mapspec.interp0).2.1 = [] ∧
    (∀ b ∈ (Mapspec.getYZfast Mapspec.smallOverlapModel [0, 1, 2, 3, 4]
        Mapspec.interp0).2.2, b = false) ∧
    Mapspec.getChi2 Mapspec.smallOverlapModel
      (Mapspec.getYZfast Mapspec.smallOverlapModel [0, 1, 2, 3, 4]
        Mapspec.interp0).1
      (Mapspec.getYZfast Mapspec.smallOverlapModel [0, 1, 2, 3, 4]
        Mapspec.interp0).2.1
      (Mapspec.getYZfast Mapspec.smallOverlapModel [0, 1, 2, 3, 4]
        Mapspec.interp0).2.2 = 0) :=
  ⟨⟨by rw [Mapspec.smallOverlap_count]; norm_num,
    by rw [Mapspec.smallOverlap_count]; norm_num⟩,
    Mapspec.callFast_small_overlap Mapspec.smallOverlapModel [0, 1, 2, 3, 4]
      Mapspec.interp0 (by rw [Mapspec.smallOverlap_count]; norm_num)
      (by rw [Mapspec.smallOverlap_count]; norm_num)⟩

/-- For a nonempty sample, `numpy.percentile(·, 50)` with the default linear
interpolation equals the textbook median. -/
theorem Mapspec.npPercentile_fifty (l : List ℚ) (h : l ≠ []) :
    Mapspec.npPercentile l 50 = Mapspec.listMedian l := by
  have hn : 1 ≤ l.length := List.length_pos.mpr h
  simp only [Mapspec.npPercentile, Mapspec.listMedian]
  rcases Nat.even_or_odd l.length with ⟨m, hm⟩ | ⟨m, hm⟩
  · have hm1 : 1 ≤ m := by omega
    have hfl : ⌊(50 : ℚ) / 100 * ((l.length : ℚ) - 1)⌋ = (m : ℤ) - 1 := by
      have he : (50 : ℚ) / 100 * ((l.length : ℚ) - 1) =
          (1/2 : ℚ) + (((m : ℤ) - 1 : ℤ) : ℚ) := by
        rw [hm]; push_cast; ring
      rw [he, Int.floor_add_int]
      norm_num
    rw [hfl]
    have htn : ((m : ℤ) - 1).toNat = m - 1 := by omega
    rw [htn]
    have hf : (50 : ℚ) / 100 * ((l.length : ℚ) - 1) -
        (((m : ℤ) - 1 : ℤ) : ℚ) = 1/2 := by
      rw [hm]; push_cast; ring
    rw [hf]
    rw [if_neg (by omega : ¬ l.length % 2 = 1)]
    have hd2 : l.length / 2 = m := by omega
    rw [hd2]
    have hsucc : m - 1 + 1 = m := by omega
    rw [hsucc]
    ring
  · have hfl : ⌊(50 : ℚ) / 100 * ((l.length : ℚ) - 1)⌋ = (m : ℤ) := by
      have he : (50 : ℚ) / 100 * ((l.length : ℚ) - 1) = ((m : ℤ) : ℚ) := by
        rw [hm]; push_cast; ring
      rw [he, Int.floor_intCast]
    rw [hfl]
    have htn : ((m : ℤ)).toNat = m := by omega
    rw [htn]
    have hf : (50 : ℚ) / 100 * ((l.length : ℚ) - 1) - ((m : ℤ) : ℚ) = 0 := by
      rw [hm]; push_cast; ring
    rw [hf]
    rw [if_pos (by omega : l.length % 2 = 1)]
    have hd2 : l.length / 2 = m := by omega
    rw [hd2]
    ring

/-- Claim C9: `make_dist_prior` both stores the Gaussian prior built from the
16/50/84 percentiles of the post-burn-in marginal and overwrites the model's
current parameter value with the chain's median (the 50th percentile); all
other parameters, priors and model fields are unchanged. -/
theorem Mapspec.makeDistPrior_updates (M : Mapspec.RescaleModel)
    (C : Mapspec.Chain) (pname : String) (burn : ℚ)
    (h : Mapspec.burnColumn C pname burn ≠ []) :
    (Mapspec.makeDistPrior M C pname burn).p.val pname =
      Mapspec.listMedian (Mapspec.burnColumn C pname burn) ∧
    (∀ q, q ≠ pname →
      (Mapspec.makeDistPrior M C pname burn).p.val q = M.p.val q) ∧
    (Mapspec.makeDistPrior M C pname burn).prior_prob.val pname =
      Mapspec.gaussPrior (Mapspec.npPercentile (Mapspec.burnColumn C pname burn) 50)
        ((Mapspec.npPercentile (Mapspec.burnColumn C pname burn) 84 -
          Mapspec.npPercentile (Mapspec.burnColumn C pname burn) 16) / 2) ∧
    (∀ q, q ≠ pname →
      (Mapspec.makeDistPrior M C pname burn).prior_prob.val q =
        M.prior_prob.val q) ∧
    (Mapspec.makeDistPrior M C pname burn).LrefWv = M.LrefWv ∧
    (Mapspec.makeDistPrior M C pname burn).LrefF = M.LrefF ∧
    (Mapspec.makeDistPrior M C pname burn).LrefEf = M.LrefEf ∧
    (Mapspec.makeDistPrior M C pname burn).use_covar = M.use_covar ∧
    (Mapspec.makeDistPrior M C pname burn).kern = M.kern ∧
    (Mapspec.makeDistPrior M C pname burn).set_scale = M.set_scale := by
  refine ⟨?_, ?_, ?_, ?_, rfl, rfl, rfl, rfl, rfl, rfl⟩
  · simp only [Mapspec.makeDistPrior, Mapspec.QDict.set]
    rw [Function.update_same]
    exact Mapspec.npPercentile_fifty _ h
  · intro q hq
    simp only [Mapspec.makeDistPrior, Mapspec.QDict.set]
    rw [Function.update_noteq hq]
  · simp only [Mapspec.makeDistPrior, Mapspec.PriorDict.set]
    rw [Function.update_same]
  · intro q hq
    simp only [Mapspec.makeDistPrior, Mapspec.PriorDict.set]
    rw [Function.update_noteq hq]

/-- The witness chain's post-burn-in marginal: burn half of `[1,2,3,4]`. -/
theorem Mapspec.medianChain_burn :
    Mapspec.burnColumn Mapspec.medianChain "shift" (1/2) = [3, 4] := by
  norm_num [Mapspec.burnColumn, Mapspec.medianChain]
  rfl

/-- Claim C9 witness: registering an empirical prior for `"shift"` from the
four-record chain with burn 0.5 sets the parameter to the median `3.5` of the
post-burn marginal `[3, 4]`. -/
theorem Mapspec.makeDistPrior_updates_witness :
    Mapspec.burnColumn Mapspec.medianChain "shift" (1/2) ≠ [] ∧
    (Mapspec.makeDistPrior Mapspec.smallOverlapModel Mapspec.medianChain
        "shift" (1/2)).p.val "shift" =
      Mapspec.listMedian (Mapspec.burnColumn Mapspec.medianChain "shift" (1/2)) :=
  ⟨by rw [Mapspec.medianChain_burn]; simp,
    (Mapspec.makeDistPrior_updates Mapspec.smallOverlapModel
      Mapspec.medianChain "shift" (1/2)
      (by rw [Mapspec.medianChain_burn]; simp)).1⟩

/-- Summing a list divided elementwise by a constant. -/
theorem Mapspec.list_sum_map_div (l : List ℝ) (c : ℝ) :
    (l.map (fun t => t / c)).sum = l.sum / c := by
  induction l with
  | nil => simp
  | cons a t ih => simp [ih, add_div]

/-- Absolute sum of a kernel normalized by the absolute value of its sum. -/
theorem Mapspec.normAbsSum (l : List ℝ) :
    ((l.map (fun t => t / |l.sum|)).map (fun t => |t|)).sum =
      (l.map (fun t => |t|)).sum / |l.sum| := by
  rw [List.map_map]
  have h : (fun t => |t|) ∘ (fun t => t / |l.sum|) =
      fun t => |t| / |l.sum| := by
    funext t
    simp [abs_div, abs_abs]
  rw [h]
  have h2 : (fun (t : ℝ) => |t| / |l.sum|) =
      (fun (t : ℝ) => t / |l.sum|) ∘ (fun t => |t|) := by
    funext t; rfl
  rw [h2, ← List.map_map, Mapspec.list_sum_map_div]

/-- The kernel offsets for a grid of length 7. -/
theorem Mapspec.nprange_seven : Mapspec.nprange 7 = [-2, -1, 0, 1, 2] := by
  decide

/-- Explicit form of the unnormalized Hermite kernel at width 1, `h3 = 0`,
`h4 = 0.3` on the unit-spaced grid of length 7 (admissible parameters: the
width equals the pixel spacing and `h4` lies on the boundary of
`[-0.3, 0.3]`).  The entries at offsets `±2` are negative. -/
theorem Mapspec.hermiteRaw_cex_explicit :
    Mapspec.hermiteRaw 1 0 (3/10) [0, 1, 2, 3, 4, 5, 6] =
      [-(Real.exp (-2) / Real.sqrt (2 * Real.pi) / 2),
       Real.exp (-(1/2)) / Real.sqrt (2 * Real.pi) * (2/5),
       19/10 / Real.sqrt (2 * Real.pi),
       Real.exp (-(1/2)) / Real.sqrt (2 * Real.pi) * (2/5),
       -(Real.exp (-2) / Real.sqrt (2 * Real.pi) / 2)] := by
  simp only [Mapspec.hermiteRaw]
  have h7 : ([(0 : ℚ), 1, 2, 3, 4, 5, 6]).length = 7 := rfl
  rw [h7, Mapspec.nprange_seven]
  have hpw : ((1 / Mapspec.dlambdaOf [(0 : ℚ), 1, 2, 3, 4, 5, 6] : ℚ) : ℝ) =
      1 := by
    norm_num [Mapspec.dlambdaOf]
  rw [hpw]
  simp only [List.map_cons, List.map_nil, Mapspec.hermSeries, Mapspec.hermE3,
    Mapspec.hermE4]
  push_cast
  norm_num [Real.exp_zero]
  constructor
  · ring
  constructor
  · ring
  constructor
  · ring
  constructor
  · ring
  · ring

/-- The unnormalized Hermite counterexample kernel has positive sum. -/
theorem Mapspec.hermiteRaw_cex_sum_pos :
    0 < (Mapspec.hermiteRaw 1 0 (3/10) [0, 1, 2, 3, 4, 5, 6]).sum := by
  rw [Mapspec.hermiteRaw_cex_explicit]
  simp only [List.sum_cons, List.sum_nil, add_zero]
  have hs2 : (0 : ℝ) < Real.sqrt (2 * Real.pi) := by positivity
  have hE1 : (0 : ℝ) < Real.exp (-(1/2)) := Real.exp_pos _
  have hE2 : (0 : ℝ) < Real.exp (-2) := Real.exp_pos _
  have hE2lt : Real.exp (-2) < 1 := by
    calc Real.exp (-2) < Real.exp 0 := Real.exp_lt_exp.mpr (by norm_num)
      _ = 1 := Real.exp_zero
  have heq : ∀ s E1 E2 : ℝ,
      -(E2 / s / 2) + (E1 / s * (2/5) + (19/10 / s + (E1 / s * (2/5) +
        -(E2 / s / 2)))) = (19/10 + 4/5 * E1 - E2) / s := by
    intro s E1 E2
    ring
  rw [heq]
  have hnum : (0 : ℝ) < 19/10 + 4/5 * Real.exp (-(1/2)) - Real.exp (-2) := by
    nlinarith
  exact div_pos hnum hs2

/-- Claim C4 counterexample: for the admissible Hermite parameter set
`width = 1` (equal to the pixel spacing), `h3 = 0`, `h4 = 0.3` on the
unit-spaced grid of length 7, the kernel's absolute values sum to strictly
more than 1 — the source normalizes by `abs(sum(k))`, which is smaller than
the sum of absolute values once `h4` gives the kernel negative lobes. -/
theorem Mapspec.hermiteK_abs_sum_cex :
    ((Mapspec.hermiteK 1 0 (3/10) [0, 1, 2, 3, 4, 5, 6]).map
      (fun t => |t|)).sum ≠ 1 := by
  have hs2 : (0 : ℝ) < Real.sqrt (2 * Real.pi) := by positivity
  have hE1 : (0 : ℝ) < Real.exp (-(1/2)) := Real.exp_pos _
  have hE2 : (0 : ℝ) < Real.exp (-2) := Real.exp_pos _
  have hSpos := Mapspec.hermiteRaw_cex_sum_pos
  have hT : ((Mapspec.hermiteRaw 1 0 (3/10) [0, 1, 2, 3, 4, 5, 6]).map
      (fun t => |t|)).sum =
      (Mapspec.hermiteRaw 1 0 (3/10) [0, 1, 2, 3, 4, 5, 6]).sum +
        2 * (Real.exp (-2) / Real.sqrt (2 * Real.pi)) := by
    rw [Mapspec.hermiteRaw_cex_explicit]
    simp only [List.map_cons, List.map_nil, List.sum_cons, List.sum_nil]
    rw [abs_neg, abs_of_nonneg (by positivity :
      (0:ℝ) ≤ Real.exp (-2) / Real.sqrt (2 * Real.pi) / 2)]
    rw [abs_of_nonneg (by positivity :
      (0:ℝ) ≤ Real.exp (-(1/2)) / Real.sqrt (2 * Real.pi) * (2/5))]
    rw [abs_of_nonneg (by positivity :
      (0:ℝ) ≤ 19/10 / Real.sqrt (2 * Real.pi))]
    ring
  simp only [Mapspec.hermiteK]
  rw [Mapspec.normAbsSum, abs_of_pos hSpos, hT]
  rw [ne_eq, div_eq_one_iff_eq hSpos.ne']
  intro hcon
  have hps : 0 < Real.exp (-2) / Real.sqrt (2 * Real.pi) :=
    div_pos hE2 hs2
  linarith

/-- Claim C4 (amended): the Delta and Gauss kernels do have absolute sum 1
(their entries are nonnegative), while the Hermite kernel is normalized so
that the absolute value of its *sum* is 1; its sum of absolute values equals
1 only when it has no negative entries.  The width/spacing hypotheses
delimit the faithful domain (Python would produce NaN at zero pixel width). -/
theorem Mapspec.kernel_abs_norm_amended (w h3 h4 : ℚ) (x : List ℚ)
    (h2 : 2 ≤ x.length) (hw : 0 < w) (hd : 0 < Mapspec.dlambdaOf x) :
    (Mapspec.deltaK.map (fun t => |t|)).sum = 1 ∧
    ((Mapspec.gaussK w x).map (fun t => |t|)).sum = 1 ∧
    ((Mapspec.hermiteRaw w h3 h4 x).sum ≠ 0 →
      |(Mapspec.hermiteK w h3 h4 x).sum| = 1) := by
  refine ⟨by simp [Mapspec.deltaK], ?_, ?_⟩
  · have hpos : ∀ a ∈ Mapspec.gaussRaw w x, 0 < a := by
      intro a ha
      simp only [Mapspec.gaussRaw, List.mem_map] at ha
      obtain ⟨p, _, rfl⟩ := ha
      exact Real.exp_pos _
    have hne : Mapspec.gaussRaw w x ≠ [] := by
      have hlen : (Mapspec.gaussRaw w x).length = 2 * (x.length / 2) - 1 := by
        simp only [Mapspec.gaussRaw, List.length_map, Mapspec.nprange_length]
      intro hcon
      rw [hcon] at hlen
      simp only [List.length_nil] at hlen
      omega
    have hsum : 0 < (Mapspec.gaussRaw w x).sum :=
      List.sum_pos _ hpos hne
    simp only [Mapspec.gaussK]
    rw [Mapspec.normAbsSum]
    have habs : (Mapspec.gaussRaw w x).map (fun t => |t|) =
        Mapspec.gaussRaw w x := by
      have hcg : ∀ a ∈ Mapspec.gaussRaw w x, |a| = a :=
        fun a ha => abs_of_pos (hpos a ha)
      calc (Mapspec.gaussRaw w x).map (fun t => |t|)
          = (Mapspec.gaussRaw w x).map (fun t => t) :=
            List.map_congr_left hcg
        _ = Mapspec.gaussRaw w x := by simp
    rw [habs, abs_of_pos hsum, div_self (ne_of_gt hsum)]
  · intro hs
    simp only [Mapspec.hermiteK]
    rw [Mapspec.list_sum_map_div, abs_div, abs_abs,
      div_self (abs_ne_zero.mpr hs)]

/-- Claim C4 witness: the amended statement at the concrete inputs — the
Gauss kernel on the length-7 unit grid has absolute sum 1, and the Hermite
counterexample kernel (whose raw sum is positive) has `|sum| = 1`. -/
theorem Mapspec.kernel_abs_norm_witness :
    (2 ≤ ([(0 : ℚ), 1, 2, 3, 4, 5, 6]).length ∧ (0 : ℚ) < 1 ∧
      0 < Mapspec.dlambdaOf [(0 : ℚ), 1, 2, 3, 4, 5, 6] ∧
      (Mapspec.hermiteRaw 1 0 (3/10) [(0 : ℚ), 1, 2, 3, 4, 5, 6]).sum ≠ 0) ∧
    ((Mapspec.gaussK 1 [(0 : ℚ), 1, 2, 3, 4, 5, 6]).map
        (fun t => |t|)).sum = 1 ∧
    |(Mapspec.hermiteK 1 0 (3/10) [(0 : ℚ), 1, 2, 3, 4, 5, 6]).sum| = 1 := by
  have hsne : (Mapspec.hermiteRaw 1 0 (3/10)
      [(0 : ℚ), 1, 2, 3, 4, 5, 6]).sum ≠ 0 :=
    Mapspec.hermiteRaw_cex_sum_pos.ne'
  have hmain := Mapspec.kernel_abs_norm_amended 1 0 (3/10)
    [(0 : ℚ), 1, 2, 3, 4, 5, 6] (by decide) (by norm_num)
    (by norm_num [Mapspec.dlambdaOf])
  exact ⟨⟨by decide, by norm_num, by norm_num [Mapspec.dlambdaOf], hsne⟩,
    hmain.2.1, hmain.2.2 hsne⟩
